import Mathlib

/-!
Verification of the token-decoding pipeline of `src/index.mjs` (napi-mecab).

JavaScript strings are modelled as `List Char`; `undefined`/`null` results of
attribute getters are modelled as `none`.  Getters that can throw a JavaScript
error (`TypeError` from calling a method on `undefined`, `ReferenceError` from
reading an undeclared identifier) return `Except JsErr _`.

The native tagger (`this.#tagger.parse(text)`) is an external binary; the
decoding loop of `MeCab.parse` is modelled as a function of the raw multi-line
string the tagger returns.
-/

/-- The two supported engine tags (`JP = "jp"`, `KO = "ko"`, index.mjs:14-15).
`MeCab`'s constructor rejects every other tag, and `Token`'s constructor
re-checks it (index.mjs:118-120), so a constructed token's engine is always
one of these two. -/
inductive Engine where
  | jp
  | ko
deriving DecidableEq, Repr

/-- JavaScript runtime errors reachable in the decoder: `TypeError` from
calling a method on `undefined`, and `ReferenceError` from evaluating an
undeclared identifier. -/
inductive JsErr where
  | typeError
  | referenceError
deriving DecidableEq, Repr

/-- `EMPTY = "*"` (index.mjs:16), the placeholder feature value. -/
def EMPTY : List Char := ['*']

/-- The sentinel line `"EOS"` terminating one analysis result (index.mjs:95). -/
def eosLine : List Char := ['E', 'O', 'S']

/-- JavaScript `s.split(sep)` for a one-character separator `sep`
(the source only ever splits on `"\t"`, `","`, `"+"`, `"/"`).
Always returns a non-empty list; `"".split(sep) == [""]`. -/
def splitOnCh (sep : Char) : List Char → List (List Char)
  | [] => [[]]
  | c :: cs =>
    if c = sep then [] :: splitOnCh sep cs
    else
      match splitOnCh sep cs with
      | [] => [[c]]
      | l :: ls => (c :: l) :: ls

/-- JavaScript `parts.join(sep)` for a one-character separator. -/
def joinCh (sep : Char) : List (List Char) → List Char
  | [] => []
  | [l] => l
  | l :: l2 :: ls => l ++ sep :: joinCh sep (l2 :: ls)

/-- A line-terminator character, as matched by the character class `[\r\n]`. -/
def isLineTerm (c : Char) : Bool := c = '\n' || c = '\r'

/-- JavaScript `raw.split(/[\r\n]+/)` (index.mjs:94): maximal runs of
line-terminator characters act as one separator; a leading or trailing run
produces a leading or trailing empty line. -/
def splitLines : List Char → List (List Char)
  | [] => [[]]
  | c :: cs =>
    if isLineTerm c then
      match cs with
      | c2 :: _ =>
        -- a terminator followed by another terminator is absorbed into the
        -- same separator run; the last terminator of the run ends the segment
        if isLineTerm c2 then splitLines cs
        else [] :: splitLines cs
      | [] => [[], []]
    else
      match splitLines cs with
      | [] => [[c]]
      | l :: ls => (c :: l) :: ls

/-- The stored state of a `Token` (index.mjs:106-109): the engine tag, the
surface string, and the comma-split raw feature fields. -/
structure Token where
  engine : Engine
  surface : List Char
  features : List (List Char)
deriving DecidableEq, Repr

/-- `Token`'s constructor (index.mjs:117-128):
`const [surface, features] = raw.split("\t")` takes the first two
tab-separated parts; when the line has no tab, `features` is `undefined`
and `features.split(",")` throws a `TypeError`.  (The engine re-check at
index.mjs:118 cannot fire here because `Engine` only has the two valid
tags.) -/
def mkToken (engine : Engine) (raw : List Char) : Except JsErr Token :=
  match splitOnCh '\t' raw with
  | surface :: featureStr :: _ =>
    .ok { engine := engine, surface := surface, features := splitOnCh ',' featureStr }
  | _ => .error .typeError

/-- The decoding loop of `MeCab.parse` (index.mjs:92-102) applied to the raw
line sequence: stop at the first `"EOS"` line, otherwise construct a token
per line; a constructor throw aborts the whole call, so no partial token
list is ever returned. -/
def decodeLines (engine : Engine) : List (List Char) → Except JsErr (List Token)
  | [] => .ok []
  | line :: rest =>
    if line = eosLine then .ok []
    else
      match mkToken engine line with
      | .error err => .error err
      | .ok t =>
        match decodeLines engine rest with
        | .error err => .error err
        | .ok ts => .ok (t :: ts)

/-- `MeCab.parse` (index.mjs:90-103) as a function of the raw multi-line text
returned by the native tagger: split on runs of line terminators, then decode
line by line up to the sentinel. -/
def decode (engine : Engine) (raw : List Char) : Except JsErr (List Token) :=
  decodeLines engine (splitLines raw)

/-- The recurring getter body `f[i] !== EMPTY ? f[i] : null`: when the field
is missing the comparison is `undefined !== "*"` (true) and the getter
returns `undefined`; both `undefined` and `null` are modelled as `none`. -/
def fieldOrNull (fs : List (List Char)) (i : Nat) : Option (List Char) :=
  match fs[i]? with
  | none => none
  | some v => if v = EMPTY then none else some v

/-- JavaScript `v !== lit` where `v` may be `undefined`:
`undefined !== lit` is true. -/
def jsNe (v : Option (List Char)) (lit : List Char) : Bool :=
  match v with
  | none => true
  | some x => x ≠ lit

/-- `get conjugationForm()` (index.mjs:136-142): Japanese field 5, else null. -/
def Token.conjugationForm (t : Token) : Option (List Char) :=
  match t.engine with
  | .jp => fieldOrNull t.features 5
  | .ko => none

/-- `get conjugationType()` (index.mjs:150-156): Japanese field 4, else null. -/
def Token.conjugationType (t : Token) : Option (List Char) :=
  match t.engine with
  | .jp => fieldOrNull t.features 4
  | .ko => none

/-- One `+`-delimited segment of the Korean compound field, split on `"/"`
(index.mjs:409-411). -/
structure ExpressionToken where
  features : List (List Char)
deriving DecidableEq, Repr

/-- `ExpressionToken`'s constructor (index.mjs:409-411). -/
def mkExpressionToken (raw : List Char) : ExpressionToken :=
  { features := splitOnCh '/' raw }

/-- `get morpheme()` (index.mjs:418-420): `this.#features[0]`. -/
def ExpressionToken.morpheme (e : ExpressionToken) : Option (List Char) :=
  e.features[0]?

/-- `get pos()` of `ExpressionToken` (index.mjs:427-429): `this.#features[1]`. -/
def ExpressionToken.pos (e : ExpressionToken) : Option (List Char) :=
  e.features[1]?

/-- `get semanticClass()` of `ExpressionToken` (index.mjs:436-438). -/
def ExpressionToken.semanticClass (e : ExpressionToken) : Option (List Char) :=
  fieldOrNull e.features 2

/-- `get expression()` (index.mjs:164-170), Korean only:
`f[7] !== EMPTY ? f[7].split("+").map(part => new ExpressionToken(part)) : null`.
When field 7 is missing the guard is `undefined !== "*"` (true) and
`undefined.split("+")` throws a `TypeError`. -/
def Token.expression (t : Token) : Except JsErr (Option (List ExpressionToken)) :=
  match t.engine with
  | .ko =>
    match t.features[7]? with
    | none => .error .typeError
    | some v =>
      if v = EMPTY then .ok none
      else .ok (some ((splitOnCh '+' v).map mkExpressionToken))
  | .jp => .ok none

/-- `get grammaticalRole()` (index.mjs:187-193): Japanese field 19, else null. -/
def Token.grammaticalRole (t : Token) : Option (List Char) :=
  match t.engine with
  | .jp => fieldOrNull t.features 19
  | .ko => none

/-- `get hasBatchim()` (index.mjs:202-208), Korean only:
`this.#features[2] === "T"` (a missing field compares unequal, giving
`false`); Japanese returns null. -/
def Token.hasBatchim (t : Token) : Option Bool :=
  match t.engine with
  | .ko => some (t.features[2]? == some ['T'])
  | .jp => none

/-- `get hasJongseong()` (index.mjs:217-223), identical body to `hasBatchim`. -/
def Token.hasJongseong (t : Token) : Option Bool :=
  match t.engine with
  | .ko => some (t.features[2]? == some ['T'])
  | .jp => none

/-- `get lemma()` (index.mjs:230-246).  Japanese: `return this.#features[7]`
verbatim — no placeholder check, so `"*"` and `undefined` pass through.
Korean: after computing `base`, the line `if (isVerb) base = base + "다"`
reads the identifier `isVerb`, which is declared nowhere in the module, so
every Korean access throws a `ReferenceError` — unless the guard
`f[4] !== EMPTY && f[7] !== EMPTY` held with `f[7]` missing, in which case
`undefined.split("/")` already threw a `TypeError`. -/
def Token.lemma (t : Token) : Except JsErr (Option (List Char)) :=
  match t.engine with
  | .jp => .ok t.features[7]?
  | .ko =>
    if jsNe t.features[4]? EMPTY && jsNe t.features[7]? EMPTY then
      match t.features[7]? with
      | none => .error .typeError
      | some _ => .error .referenceError
    else .error .referenceError

/-- `get lemmaKana()` (index.mjs:254-260): Japanese field 6, else null. -/
def Token.lemmaKana (t : Token) : Option (List Char) :=
  match t.engine with
  | .jp => fieldOrNull t.features 6
  | .ko => none

/-- `get lemmaPronunciation()` (index.mjs:268-274): Japanese field 11. -/
def Token.lemmaPronunciation (t : Token) : Option (List Char) :=
  match t.engine with
  | .jp => fieldOrNull t.features 11
  | .ko => none

/-- `get origin()` (index.mjs:283-289): Japanese field 12, else null. -/
def Token.origin (t : Token) : Option (List Char) :=
  match t.engine with
  | .jp => fieldOrNull t.features 12
  | .ko => none

/-- `get pitch()` (index.mjs:297-303): Japanese field 24, else null. -/
def Token.pitch (t : Token) : Option (List Char) :=
  match t.engine with
  | .jp => fieldOrNull t.features 24
  | .ko => none

/-- `get pos()` (index.mjs:314-328).  Japanese: `[f[0]]` then push `f[i]`
for `i = 1, 2, 3` whenever `f[i] !== EMPTY` (a missing field also passes
that test and `undefined` is pushed, hence the `Option` elements).
Korean: `f[0].split("+")`; `f[0]` always exists for a constructed token
because `split(",")` never yields an empty array (`mkToken_features_ne_nil`),
so it is read with `headD`. -/
def Token.pos (t : Token) : List (Option (List Char)) :=
  match t.engine with
  | .jp =>
    [t.features[0]?]
      ++ (if jsNe t.features[1]? EMPTY then [t.features[1]?] else [])
      ++ (if jsNe t.features[2]? EMPTY then [t.features[2]?] else [])
      ++ (if jsNe t.features[3]? EMPTY then [t.features[3]?] else [])
  | .ko => (splitOnCh '+' (t.features.headD [])).map some

/-- Modelled from the spec: the code under `src/` exposes no
`hasMultiplePOS` accessor; §4.4 of the design defines it as "true iff
`partOfSpeech` length exceeds 1". -/
def Token.hasMultiplePOS (t : Token) : Bool :=
  t.pos.length > 1

/-- `get pronunciation()` (index.mjs:335-343): Japanese field 9, Korean
field 3. -/
def Token.pronunciation (t : Token) : Option (List Char) :=
  match t.engine with
  | .jp => fieldOrNull t.features 9
  | .ko => fieldOrNull t.features 3

/-- `get raw()` (index.mjs:350-352): `surface + "\t" + features.join(",")`. -/
def Token.raw (t : Token) : List Char :=
  t.surface ++ '\t' :: joinCh ',' t.features

/-- `get semanticClass()` of `Token` (index.mjs:360-366): Korean field 1. -/
def Token.semanticClass (t : Token) : Option (List Char) :=
  match t.engine with
  | .ko => fieldOrNull t.features 1
  | .jp => none

/-- `get type()` (index.mjs:390-396): Korean field 4, else null. -/
def Token.type (t : Token) : Option (List Char) :=
  match t.engine with
  | .ko => fieldOrNull t.features 4
  | .jp => none

/-! ## Basic facts about the string operations -/

theorem splitOnCh_ne_nil (sep : Char) (s : List Char) : splitOnCh sep s ≠ [] := by
  induction s with
  | nil => simp [splitOnCh]
  | cons c cs ih =>
    simp only [splitOnCh]
    split
    · simp
    · split
      · simp
      · simp

/-- Joining a split with the same separator restores the string. -/
theorem joinCh_splitOnCh (sep : Char) (s : List Char) :
    joinCh sep (splitOnCh sep s) = s := by
  induction s with
  | nil => rfl
  | cons c cs ih =>
    simp only [splitOnCh]
    by_cases h : c = sep
    · subst h
      rw [if_pos rfl]
      rcases hsplit : splitOnCh c cs with _ | ⟨l, ls⟩
      · exact absurd hsplit (splitOnCh_ne_nil c cs)
      · rw [hsplit] at ih
        simpa [joinCh] using ih
    · rw [if_neg h]
      rcases hsplit : splitOnCh sep cs with _ | ⟨l, ls⟩
      · exact absurd hsplit (splitOnCh_ne_nil sep cs)
      · rw [hsplit] at ih
        cases ls with
        | nil => simpa [joinCh] using ih
        | cons l2 ls2 =>
          simp only [joinCh] at ih ⊢
          rw [List.cons_append, ih]

/-- A string not containing the separator splits into the singleton of itself. -/
theorem splitOnCh_eq_single (sep : Char) (s : List Char) (h : sep ∉ s) :
    splitOnCh sep s = [s] := by
  induction s with
  | nil => rfl
  | cons c cs ih =>
    simp only [List.mem_cons, not_or] at h
    have hc : ¬c = sep := fun hc => h.1 hc.symm
    simp only [splitOnCh, if_neg hc, ih h.2]

/-- Splitting at the first separator occurrence peels off the prefix. -/
theorem splitOnCh_append (sep : Char) (s t : List Char) (h : sep ∉ s) :
    splitOnCh sep (s ++ sep :: t) = s :: splitOnCh sep t := by
  induction s with
  | nil => simp [splitOnCh]
  | cons c cs ih =>
    simp only [List.mem_cons, not_or] at h
    have hc : ¬c = sep := fun hc => h.1 hc.symm
    rw [List.cons_append, splitOnCh, if_neg hc, ih h.2]

/-! ## Claim theorems -/

/-- C1: for every engine tag and every well-formed raw token line — a line
`surface TAB featureString` with exactly one tab separator — the constructed
token's `raw` accessor reproduces the input line byte for byte. -/
theorem raw_roundtrip (e : Engine) (s f : List Char)
    (hs : '\t' ∉ s) (hf : '\t' ∉ f) :
    (mkToken e (s ++ '\t' :: f)).map Token.raw = .ok (s ++ '\t' :: f) := by
  simp only [mkToken, splitOnCh_append _ _ _ hs, splitOnCh_eq_single _ _ hf,
    Except.map, Token.raw, joinCh_splitOnCh]

theorem raw_roundtrip_witness :
    (mkToken Engine.jp ("ab".data ++ '\t' :: "c,d".data)).map Token.raw
      = .ok ("ab".data ++ '\t' :: "c,d".data) :=
  raw_roundtrip Engine.jp ("ab".data) ("c,d".data) (by decide) (by decide)

/-- The `nullIfPlaceholder` decode rule never produces the literal `"*"`. -/
theorem fieldOrNull_ne_empty (fs : List (List Char)) (i : Nat) :
    fieldOrNull fs i ≠ some EMPTY := by
  unfold fieldOrNull
  rcases h : fs[i]? with _ | v
  · simp
  · by_cases hv : v = EMPTY <;> simp [hv]

/-- C2 counterexample: the Japanese token decoded from
`"す\t*,*,*,*,*,*,*,*"` has the placeholder at mapped field 7, yet its
`lemma` accessor returns the literal string `"*"` instead of absent. -/
theorem jp_lemma_placeholder_surfaces :
    (mkToken Engine.jp ("す\t*,*,*,*,*,*,*,*".data)).map (fun t => t.features[7]?)
        = .ok (some EMPTY)
    ∧ (mkToken Engine.jp ("す\t*,*,*,*,*,*,*,*".data)).bind Token.lemma
        = .ok (some EMPTY) :=
  ⟨rfl, rfl⟩

/-- C2 (amended): every derived attribute implemented with the
`nullIfPlaceholder` rule — `conjugationForm`, `conjugationType`,
`grammaticalRole`, `lemmaKana`, `lemmaPronunciation`, `origin`, `pitch`,
`pronunciation`, `semanticClass`, `type` on `Token` and `semanticClass` on
`ExpressionToken` — maps a raw `"*"` to absent and is never the literal
`"*"`; the Japanese `lemma` accessor is the exception, returning field 7
verbatim. -/
theorem placeholder_normalization :
    (∀ (fs : List (List Char)) (i : Nat), fs[i]? = some EMPTY → fieldOrNull fs i = none)
    ∧ (∀ t : Token,
        t.conjugationForm ≠ some EMPTY ∧ t.conjugationType ≠ some EMPTY
        ∧ t.grammaticalRole ≠ some EMPTY ∧ t.lemmaKana ≠ some EMPTY
        ∧ t.lemmaPronunciation ≠ some EMPTY ∧ t.origin ≠ some EMPTY
        ∧ t.pitch ≠ some EMPTY ∧ t.pronunciation ≠ some EMPTY
        ∧ t.semanticClass ≠ some EMPTY ∧ t.type ≠ some EMPTY)
    ∧ (∀ et : ExpressionToken, et.semanticClass ≠ some EMPTY) := by
  refine ⟨fun fs i h => by simp [fieldOrNull, h], ?_, ?_⟩
  · rintro ⟨eng, s, fs⟩
    cases eng <;>
      simp only [Token.conjugationForm, Token.conjugationType, Token.grammaticalRole,
        Token.lemmaKana, Token.lemmaPronunciation, Token.origin, Token.pitch,
        Token.pronunciation, Token.semanticClass, Token.type] <;>
      refine ⟨?_, ?_, ?_, ?_, ?_, ?_, ?_, ?_, ?_, ?_⟩ <;>
      first
        | exact fieldOrNull_ne_empty _ _
        | simp
  · intro et
    exact fieldOrNull_ne_empty _ _

theorem placeholder_normalization_witness :
    fieldOrNull [EMPTY] 0 = none
    ∧ (Token.mk Engine.jp ("す".data) [EMPTY]).conjugationForm ≠ some EMPTY
    ∧ (mkExpressionToken ("가/JKS".data)).semanticClass ≠ some EMPTY :=
  ⟨placeholder_normalization.1 [EMPTY] 0 rfl,
   (placeholder_normalization.2.1 (Token.mk Engine.jp ("す".data) [EMPTY])).1,
   placeholder_normalization.2.2 (mkExpressionToken ("가/JKS".data))⟩

/-- C3: the Korean `lemma` accessor always throws.  At the spec's Korean
example line it throws a `ReferenceError` (the guard is false because field
4 is the placeholder, and the following `if (isVerb)` reads the undeclared
identifier `isVerb`); in general, every access on a Korean token ends in an
error, never a value. -/
theorem ko_lemma_raises :
    ((mkToken Engine.ko ("아버지\tNNG,*,F,아버지,*,*,*,*".data)).bind Token.lemma
      = .error JsErr.referenceError)
    ∧ ∀ (s : List Char) (fs : List (List Char)),
        (Token.lemma (Token.mk Engine.ko s fs)).isOk = false := by
  refine ⟨rfl, fun s fs => ?_⟩
  simp only [Token.lemma]
  split
  · split <;> rfl
  · rfl

/-- C6 counterexample: in the spec's Japanese example line, field 7 (the
UniDic lemma slot the code reads) holds `"スモモ"`; the expected lemma
`"すもも"` sits at field 6, so the decoded lemma differs from the claim. -/
theorem jp_example_lemma_counterexample :
    ((mkToken Engine.jp ("すもも\t名詞,一般,*,*,*,*,すもも,スモモ,スモモ".data)).bind Token.lemma
      = .ok (some ("スモモ".data)))
    ∧ "スモモ".data ≠ "すもも".data :=
  ⟨rfl, by decide⟩

/-- C6 (amended): the Japanese token decoded from
`"すもも\t名詞,一般,*,*,*,*,すもも,スモモ,スモモ"` has part-of-speech sequence
`["名詞", "一般"]`, `hasMultiplePOS` true, and lemma `"スモモ"` (field 7). -/
theorem jp_example_decoded :
    (mkToken Engine.jp ("すもも\t名詞,一般,*,*,*,*,すもも,スモモ,スモモ".data)).map
        (fun t => (t.pos, t.hasMultiplePOS))
      = .ok ([some ("名詞".data), some ("一般".data)], true)
    ∧ (mkToken Engine.jp ("すもも\t名詞,一般,*,*,*,*,すもも,スモモ,スモモ".data)).bind Token.lemma
      = .ok (some ("スモモ".data)) :=
  ⟨rfl, rfl⟩

/-- C7: the Korean token decoded from `"아버지\tNNG,*,F,아버지,*,*,*,*"` has
part-of-speech sequence `["NNG"]` and final-consonant flag `false` (field 2
is `"F"`, not `"T"`), under both accessor names. -/
theorem ko_example_decoded :
    (mkToken Engine.ko ("아버지\tNNG,*,F,아버지,*,*,*,*".data)).map
        (fun t => (t.pos, t.hasJongseong, t.hasBatchim))
      = .ok ([some ("NNG".data)], some false, some false) :=
  rfl

/-- C8: decomposing `"가/JKS+는/JX"` yields exactly two records, in order:
morpheme `"가"` with tag `"JKS"` and absent semantic class, then morpheme
`"는"` with tag `"JX"` and absent semantic class — both directly on the
decomposition and through a Korean token's `expression` accessor. -/
theorem expression_decomposition_example :
    (((splitOnCh '+' ("가/JKS+는/JX".data)).map mkExpressionToken).map
        (fun e => (e.morpheme, e.pos, e.semanticClass))
      = [(some ("가".data), some ("JKS".data), none),
         (some ("는".data), some ("JX".data), none)])
    ∧ (Token.mk Engine.ko ("아버지가".data)
        [("NNG".data), EMPTY, ("F".data), ("아버지가".data), ("Inflect".data),
         EMPTY, EMPTY, ("가/JKS+는/JX".data)]).expression
      = .ok (some [mkExpressionToken ("가/JKS".data), mkExpressionToken ("는/JX".data)]) :=
  ⟨rfl, rfl⟩

/-- The line splitter always yields at least one line (like JS `split`). -/
theorem splitLines_ne_nil (s : List Char) : splitLines s ≠ [] := by
  induction s with
  | nil => simp [splitLines]
  | cons c cs ih =>
    simp only [splitLines]
    split
    · cases cs with
      | nil => simp
      | cons c2 cs2 =>
        by_cases h2 : isLineTerm c2 = true
        · simpa [h2] using ih
        · simp [h2]
    · split <;> simp

/-- A line without a tab makes the `Token` constructor throw: `split("\t")`
yields a single element, `features` is `undefined`, and `features.split(",")`
is a `TypeError`. -/
theorem mkToken_no_tab (e : Engine) (l : List Char) (h : '\t' ∉ l) :
    mkToken e l = .error .typeError := by
  simp [mkToken, splitOnCh_eq_single _ _ h]

/-- A string containing the separator splits into at least two parts. -/
theorem splitOnCh_length_of_mem (sep : Char) (s : List Char) (h : sep ∈ s) :
    2 ≤ (splitOnCh sep s).length := by
  induction s with
  | nil => simp at h
  | cons c cs ih =>
    simp only [splitOnCh]
    by_cases hc : c = sep
    · rw [if_pos hc]
      rcases hsp : splitOnCh sep cs with _ | ⟨l, ls⟩
      · exact absurd hsp (splitOnCh_ne_nil sep cs)
      · simp
    · rw [if_neg hc]
      rcases List.mem_cons.mp h with heq | hm
      · exact absurd heq.symm hc
      · have h2 := ih hm
        rcases hsp : splitOnCh sep cs with _ | ⟨l, ls⟩
        · exact absurd hsp (splitOnCh_ne_nil sep cs)
        · rw [hsp] at h2
          simpa using h2

/-- A line containing a tab always gives the `Token` constructor a defined
(possibly empty) surface and feature string, so construction succeeds. -/
theorem mkToken_ok_of_tab (e : Engine) (l : List Char) (h : '\t' ∈ l) :
    ∃ t, mkToken e l = .ok t := by
  have h2 := splitOnCh_length_of_mem '\t' l h
  unfold mkToken
  rcases hsp : splitOnCh '\t' l with _ | ⟨a, rest⟩
  · exact absurd hsp (splitOnCh_ne_nil _ _)
  · rw [hsp] at h2
    cases rest with
    | nil => simp at h2
    | cons b rest2 => exact ⟨_, rfl⟩

/-- C4 counterexample: decoding the empty raw output (and a raw output of
line terminators only) throws a `TypeError` instead of returning the empty
token sequence, because the first lexed line is empty and has no tab; and
decoding the whitespace-only raw output `"\t"` returns one degenerate token
rather than the empty sequence. -/
theorem decode_empty_raises :
    decode Engine.jp ("".data) = .error JsErr.typeError
    ∧ decode Engine.jp ("\r\n".data) = .error JsErr.typeError
    ∧ decode Engine.jp ("\t".data) = .ok [Token.mk Engine.jp [] [[]]] :=
  ⟨rfl, rfl, rfl⟩

/-- C4 (amended): if the first lexed line of the raw output is the sentinel
`"EOS"`, decoding returns the empty token sequence without error.  Empty or
whitespace-only input, however, never yields the empty sequence: when the
first lexed line has no tab (empty input, or spaces and line terminators
only) decoding throws a `TypeError`; and when the first non-sentinel lexed
line does contain a tab (e.g. the whitespace-only input `"\t"`) the token
constructor succeeds on it, so the call returns a non-empty token list or a
later error, but not the empty sequence. -/
theorem decode_sentinel_first (e : Engine) (raw : List Char) :
    ((splitLines raw).headD [] = eosLine → decode e raw = .ok [])
    ∧ ('\t' ∉ (splitLines raw).headD [] → (splitLines raw).headD [] ≠ eosLine →
        decode e raw = .error JsErr.typeError)
    ∧ ('\t' ∈ (splitLines raw).headD [] → (splitLines raw).headD [] ≠ eosLine →
        decode e raw ≠ .ok []) := by
  rcases h : splitLines raw with _ | ⟨l, ls⟩
  · exact absurd h (splitLines_ne_nil raw)
  · rw [decode, h]
    simp only [List.headD_cons]
    refine ⟨?_, ?_, ?_⟩
    · intro hl
      simp [decodeLines, hl]
    · intro hnt hne
      simp [decodeLines, hne, mkToken_no_tab e l hnt]
    · intro htab hne
      obtain ⟨t, ht⟩ := mkToken_ok_of_tab e l htab
      simp only [decodeLines, if_neg hne, ht]
      rcases hr : decodeLines e ls with err | ts <;> simp

theorem decode_sentinel_first_witness :
    decode Engine.jp ("EOS\n".data) = .ok []
    ∧ decode Engine.ko (" ".data) = .error JsErr.typeError
    ∧ decode Engine.jp ("\t".data) ≠ .ok [] :=
  ⟨(decode_sentinel_first Engine.jp ("EOS\n".data)).1 (by decide),
   (decode_sentinel_first Engine.ko (" ".data)).2.1 (by decide) (by decide),
   (decode_sentinel_first Engine.jp ("\t".data)).2.2 (by decide) (by decide)⟩

/-- The `nullIfPlaceholder` rule resolves an index beyond the field count to
absent. -/
theorem fieldOrNull_of_len_le (fs : List (List Char)) (i : Nat)
    (h : fs.length ≤ i) : fieldOrNull fs i = none := by
  simp [fieldOrNull, List.getElem?_eq_none h]

/-- C5 counterexample: on the short Korean line `"아버지\tNNG"` (one feature
field), the `expression` accessor reads missing field 7 and throws a
`TypeError` instead of resolving to absent. -/
theorem ko_expression_short_line_raises :
    (mkToken Engine.ko ("아버지\tNNG".data)).bind Token.expression
      = .error JsErr.typeError :=
  rfl

/-- C5 (amended): every accessor that merely indexes a field resolves an
index beyond the available field count to absent without error, each at its
own mapped index (`conjugationForm` 5, `conjugationType` 4,
`grammaticalRole` 19, `lemmaKana` 6, `lemmaPronunciation` 11, `origin` 12,
`pitch` 24, `pronunciation` 9 Japanese / 3 Korean, `semanticClass` 1,
`type` 4, and the Japanese `lemma` at 7); but the Korean `expression`
accessor throws a `TypeError` when field 7 is missing, because it calls a
method on the missing field — and the Korean `lemma` on such a line also
throws: a `TypeError` when the guard holds with field 7 missing, otherwise
the `isVerb` `ReferenceError`. -/
theorem short_line_accessors_absent (t : Token) :
    (t.features.length ≤ 5 → t.conjugationForm = none)
    ∧ (t.features.length ≤ 4 → t.conjugationType = none)
    ∧ (t.features.length ≤ 19 → t.grammaticalRole = none)
    ∧ (t.features.length ≤ 6 → t.lemmaKana = none)
    ∧ (t.features.length ≤ 11 → t.lemmaPronunciation = none)
    ∧ (t.features.length ≤ 12 → t.origin = none)
    ∧ (t.features.length ≤ 24 → t.pitch = none)
    ∧ (t.engine = Engine.jp → t.features.length ≤ 9 → t.pronunciation = none)
    ∧ (t.engine = Engine.ko → t.features.length ≤ 3 → t.pronunciation = none)
    ∧ (t.features.length ≤ 1 → t.semanticClass = none)
    ∧ (t.features.length ≤ 4 → t.type = none)
    ∧ (t.engine = Engine.jp → t.features.length ≤ 7 → t.lemma = .ok none)
    ∧ (t.engine = Engine.ko → t.features.length ≤ 7 →
        t.expression = .error JsErr.typeError)
    ∧ (t.engine = Engine.ko → t.features.length ≤ 7 →
        t.lemma = .error JsErr.typeError ∨ t.lemma = .error JsErr.referenceError) := by
  obtain ⟨eng, s, fs⟩ := t
  have hnone : jsNe (none : Option (List Char)) EMPTY = true := rfl
  have hko : ∀ h : fs.length ≤ 7,
      Token.lemma (Token.mk Engine.ko s fs) = .error JsErr.typeError
      ∨ Token.lemma (Token.mk Engine.ko s fs) = .error JsErr.referenceError := by
    intro h
    have h7 : fs[7]? = none := List.getElem?_eq_none h
    by_cases hf4 : jsNe fs[4]? EMPTY = true
    · left
      simp [Token.lemma, h7, hf4, hnone]
    · right
      simp [Token.lemma, h7, hf4]
  refine ⟨?_, ?_, ?_, ?_, ?_, ?_, ?_, ?_, ?_, ?_, ?_, ?_, ?_, ?_⟩
  · intro h
    cases eng <;> simp [Token.conjugationForm, fieldOrNull_of_len_le fs 5 h]
  · intro h
    cases eng <;> simp [Token.conjugationType, fieldOrNull_of_len_le fs 4 h]
  · intro h
    cases eng <;> simp [Token.grammaticalRole, fieldOrNull_of_len_le fs 19 h]
  · intro h
    cases eng <;> simp [Token.lemmaKana, fieldOrNull_of_len_le fs 6 h]
  · intro h
    cases eng <;> simp [Token.lemmaPronunciation, fieldOrNull_of_len_le fs 11 h]
  · intro h
    cases eng <;> simp [Token.origin, fieldOrNull_of_len_le fs 12 h]
  · intro h
    cases eng <;> simp [Token.pitch, fieldOrNull_of_len_le fs 24 h]
  · cases eng
    · intro _ h
      simp [Token.pronunciation, fieldOrNull_of_len_le fs 9 h]
    · intro he _
      exact absurd he (by simp)
  · cases eng
    · intro he _
      exact absurd he (by simp)
    · intro _ h
      simp [Token.pronunciation, fieldOrNull_of_len_le fs 3 h]
  · intro h
    cases eng <;> simp [Token.semanticClass, fieldOrNull_of_len_le fs 1 h]
  · intro h
    cases eng <;> simp [Token.type, fieldOrNull_of_len_le fs 4 h]
  · cases eng
    · intro _ h
      have h7 : fs[7]? = none := List.getElem?_eq_none h
      simp [Token.lemma, h7]
    · intro he _
      exact absurd he (by simp)
  · cases eng
    · intro he _
      exact absurd he (by simp)
    · intro _ h
      have h7 : fs[7]? = none := List.getElem?_eq_none h
      simp [Token.expression, h7]
  · cases eng
    · intro he _
      exact absurd he (by simp)
    · intro _ h
      exact hko h

theorem short_line_accessors_absent_witness :
    (Token.mk Engine.ko ("아버지".data) [("NNG".data)]).grammaticalRole = none
    ∧ (Token.mk Engine.ko ("아버지".data) [("NNG".data)]).expression
        = .error JsErr.typeError
    ∧ (Token.lemma (Token.mk Engine.ko ("아버지".data) [("NNG".data)])
          = .error JsErr.typeError
        ∨ Token.lemma (Token.mk Engine.ko ("아버지".data) [("NNG".data)])
          = .error JsErr.referenceError)
    ∧ (Token.mk Engine.jp ("す".data)
        [("名詞".data), ("一".data), ("二".data)]).grammaticalRole = none
    ∧ Token.lemma (Token.mk Engine.jp ("す".data)
        [("名詞".data), ("一".data), ("二".data)]) = .ok none := by
  refine ⟨?_, ?_, ?_, ?_, ?_⟩
  · exact (short_line_accessors_absent _).2.2.1 (by decide)
  · exact (short_line_accessors_absent _).2.2.2.2.2.2.2.2.2.2.2.2.1 rfl (by decide)
  · exact (short_line_accessors_absent _).2.2.2.2.2.2.2.2.2.2.2.2.2 rfl (by decide)
  · exact (short_line_accessors_absent _).2.2.1 (by decide)
  · exact (short_line_accessors_absent _).2.2.2.2.2.2.2.2.2.2.2.1 rfl (by decide)

/-- The `Token` constructor can only throw a `TypeError`. -/
theorem mkToken_error (e : Engine) (raw : List Char) (err : JsErr)
    (h : mkToken e raw = .error err) : err = .typeError := by
  unfold mkToken at h
  split at h
  · exact absurd h (by simp)
  · exact (Except.error.inj h).symm

/-- A tab-less line strictly before the sentinel makes the whole decoding
loop throw. -/
theorem decodeLines_error_of_no_tab (e : Engine) (ls : List (List Char))
    (l : List Char) (hmem : l ∈ ls.takeWhile (fun s => s != eosLine))
    (hnt : '\t' ∉ l) : decodeLines e ls = .error JsErr.typeError := by
  induction ls with
  | nil => simp [List.takeWhile] at hmem
  | cons x rest ih =>
    by_cases hx : x = eosLine
    · simp [List.takeWhile_cons, hx] at hmem
    · simp only [List.takeWhile_cons, bne_iff_ne, ne_eq, hx, not_false_eq_true,
        ite_true, List.mem_cons] at hmem
      rcases hmem with rfl | hmem2
      · simp [decodeLines, hx, mkToken_no_tab e l hnt]
      · simp only [decodeLines, if_neg hx]
        rcases hmk : mkToken e x with err | t
        · have herr := mkToken_error e x err hmk
          subst herr
          simp
        · simp [ih hmem2]

/-- C9: for every raw output containing, before the sentinel, a line with no
tab character, the whole decode call fails with the malformed-line error (the
`TypeError` thrown by the `Token` constructor) — it returns `.error`, never a
partial token sequence. -/
theorem malformed_line_fail_fast (e : Engine) (raw l : List Char)
    (hmem : l ∈ (splitLines raw).takeWhile (fun s => s != eosLine))
    (hnt : '\t' ∉ l) :
    decode e raw = .error JsErr.typeError := by
  rw [decode]
  exact decodeLines_error_of_no_tab e (splitLines raw) l hmem hnt

theorem malformed_line_fail_fast_witness :
    decode Engine.jp ("A\tX\nB\nC\tY".data) = .error JsErr.typeError :=
  malformed_line_fail_fast Engine.jp ("A\tX\nB\nC\tY".data) ("B".data)
    (by decide) (by decide)

/-- The decoding loop only ever consumes the lines strictly before the first
sentinel line. -/
theorem decodeLines_takeWhile (e : Engine) (ls : List (List Char)) :
    decodeLines e ls = decodeLines e (ls.takeWhile (fun s => s != eosLine)) := by
  induction ls with
  | nil => rfl
  | cons x rest ih =>
    by_cases hx : x = eosLine
    · simp [List.takeWhile_cons, hx, decodeLines]
    · simp only [List.takeWhile_cons, bne_iff_ne, ne_eq, hx, not_false_eq_true,
        ite_true]
      simp only [decodeLines, if_neg hx, ih]

/-- C10: lexing stops at the sentinel.  Decoding `"A\tX,Y\r\nEOS\r\n"`
yields exactly the one token of the line before `EOS`; decoding `"EOS"`
alone yields no token; and in general a decode call equals the decode of
only the lines strictly before the first sentinel line, so no token is ever
built from the sentinel line or from any line following it. -/
theorem sentinel_truncation :
    (∀ e, decode e ("A\tX,Y\r\nEOS\r\n".data)
        = .ok [Token.mk e ("A".data) [("X".data), ("Y".data)]])
    ∧ (∀ e, decode e ("EOS".data) = .ok [])
    ∧ (∀ (e : Engine) (raw : List Char),
        decode e raw
          = decodeLines e ((splitLines raw).takeWhile (fun s => s != eosLine))) := by
  refine ⟨fun e => rfl, fun e => rfl, fun e raw => ?_⟩
  rw [decode]
  exact decodeLines_takeWhile e (splitLines raw)

theorem sentinel_truncation_witness :
    decode Engine.jp ("A\tX,Y\r\nEOS\r\n".data)
      = .ok [Token.mk Engine.jp ("A".data) [("X".data), ("Y".data)]] :=
  sentinel_truncation.1 Engine.jp
